import Mathlib

/-
Verification of the website-search backend (src/backend/app.py).

Python strings are modeled as lists of characters (`Str`), so slicing,
length and concatenation are the corresponding list operations.  The
helper functions `pyStrip`, `pySplit` and `joinSpace` model the Python
string methods strip(), split() (no separator: split on whitespace runs,
dropping empty pieces) and the single-space join.  Pages fetched over the
network, the embedding model and the Weaviate vector store are external
collaborators; they are represented by explicit inputs (fetched anchor
lists, parsed HTML trees, hit lists with distances).
-/

namespace WebsiteSearch

/-- Python strings, modeled as lists of characters. -/
abbrev Str := List Char

/-- Python str.strip(): drop leading and trailing whitespace. -/
def pyStrip (s : Str) : Str :=
  ((s.dropWhile Char.isWhitespace).reverse.dropWhile Char.isWhitespace).reverse

/-- Helper for Python str.split() with no separator: accumulate the current
word (in reverse) and emit it when whitespace or the end of the string is
reached; runs of whitespace produce no empty words. -/
def pySplitAux : List Char → List Char → List Str
  | [], [] => []
  | [], acc => [acc.reverse]
  | c :: cs, acc =>
    if c.isWhitespace then
      match acc with
      | [] => pySplitAux cs []
      | _ :: _ => acc.reverse :: pySplitAux cs []
    else pySplitAux cs (c :: acc)

/-- Python str.split() with no separator. -/
def pySplit (s : Str) : List Str := pySplitAux s []

/-- Python " ".join(ws): words joined by single spaces. -/
def joinSpace : List Str → Str
  | [] => []
  | [w] => w
  | w :: ws => w ++ ' ' :: joinSpace ws

/-- Fuel-indexed grouping of a list into consecutive runs of n elements,
modeling the loop `for i in range(0, len(words), n): words[i:i+n]` of
chunk_text (app.py lines 123-124).  The fuel argument only serves
structural termination; it is instantiated with the list length. -/
def groupsF : Nat → List α → Nat → List (List α)
  | _, [], _ => []
  | 0, _ :: _, _ => []
  | fuel + 1, x :: xs, n => (x :: xs.take (n - 1)) :: groupsF fuel (xs.drop (n - 1)) n

/-- Consecutive runs of n elements, as produced by range(0, len, n) slices.
Faithful to the source for n positive; Python range raises ValueError on a
zero step, so the source never runs with n = 0. -/
def groups (l : List α) (n : Nat) : List (List α) := groupsF l.length l n

/-- chunk_text (app.py lines 120-127): split the text into words, group the
words into runs of max_tokens, join each run with single spaces, and keep
the joined chunk when its stripped form is non-empty. -/
def chunk_text (text : Str) (max_tokens : Nat) : List Str :=
  let words := pySplit text
  (groups words max_tokens).filterMap (fun g =>
    let c := joinSpace g
    if pyStrip c = [] then none else some c)

/-- Characters Python urlparse accepts inside a URL scheme. -/
def validSchemeChar (c : Char) : Bool :=
  c.isAlpha || c.isDigit || c = '+' || c = '-' || c = '.'

/-- The part of the URL after "scheme:" when a valid scheme prefix is
present, else the whole URL (models the scheme splitting of urlparse). -/
def remainderAfterScheme (url : Str) : Str :=
  let pre := url.takeWhile (fun c => c ≠ ':')
  if pre.length.blt url.length &&
      (match pre with | c :: _ => c.isAlpha | [] => false) && pre.all validSchemeChar then
    url.drop (pre.length + 1)
  else url

/-- urlparse(url).netloc: when the remainder after the scheme starts with
"//", the characters up to the next "/", "?" or "#"; empty otherwise. -/
def netloc (url : Str) : Str :=
  let rest := remainderAfterScheme url
  if ("//".data).isPrefixOf rest then
    (rest.drop 2).takeWhile (fun c => !(c = '/' || c = '?' || c = '#'))
  else []

/-- get_collection_name (app.py lines 129-136): take the netloc of the URL,
replace dots and dashes by underscores, keep only ASCII alphanumerics and
underscores, prepend "website_" when the result is empty or does not start
with a letter, prepend "Website_" and truncate to 50 characters. -/
def get_collection_name (base_url : Str) : Str :=
  let domain1 := (netloc base_url).map (fun c => if c = '.' || c = '-' then '_' else c)
  let domain2 := domain1.filter (fun c => c.isAlpha || c.isDigit || c = '_')
  let domain3 :=
    match domain2 with
    | [] => "website_".data ++ domain2
    | c :: _ => if c.isAlpha then domain2 else "website_".data ++ domain2
  ("Website_".data ++ domain3).take 50

/-- clear_all_collections (app.py lines 278-295): walk the list of existing
collection names and attempt deletion of exactly those that start with
"Website_".  The per-name deletion calls go to the vector store (failures
are logged and skipped there); the model returns the list of names for
which deletion is attempted. -/
def clear_all_collections : List Str → List Str
  | [] => []
  | name :: rest =>
    if ("Website_".data).isPrefixOf name then name :: clear_all_collections rest
    else clear_all_collections rest

/-- A parsed HTML tree as BeautifulSoup exposes it: text nodes and elements
with a tag and children.  Attributes and escaping are not modeled; a
fetched raw page is represented by its parsed node list, and the raw
markup string is its serialization. -/
inductive Node where
  | text (s : Str)
  | elem (tag : Str) (children : List Node)

/-- The tags removed by clean_html (app.py line 116). -/
def removedTags : List Str :=
  ["script".data, "style".data, "meta".data, "link".data, "nav".data,
   "header".data, "footer".data]

mutual
/-- Tag removal of clean_html on one node: a blocked element is decomposed
(dropped with its whole subtree), any other node is kept with its children
cleaned. -/
def cleanNode : Node → List Node
  | Node.text s => [Node.text s]
  | Node.elem tag cs => if tag ∈ removedTags then [] else [Node.elem tag (cleanList cs)]
/-- Tag removal of clean_html on a node list. -/
def cleanList : List Node → List Node
  | [] => []
  | n :: ns => cleanNode n ++ cleanList ns
end

/-- clean_html (app.py lines 114-118). -/
def clean_html (doc : List Node) : List Node := cleanList doc

mutual
/-- All string descendants of a node, in document order (the .strings of
BeautifulSoup). -/
def stringsNode : Node → List Str
  | Node.text s => [s]
  | Node.elem _ cs => stringsList cs
/-- All string descendants of a node list, in document order. -/
def stringsList : List Node → List Str
  | [] => []
  | n :: ns => stringsNode n ++ stringsList ns
end

/-- soup.get_text(separator=" ", strip=True) (app.py line 179): each string
is stripped, whitespace-only strings are skipped, and the rest are joined
with single spaces. -/
def get_text_strip (doc : List Node) : Str :=
  joinSpace (((stringsList doc).map pyStrip).filter (fun w => !w.isEmpty))

mutual
/-- soup.find("title") on one node: the node itself when it is a title
element, else the first title element among its descendants. -/
def findTitleNode : Node → Option Node
  | Node.text _ => none
  | Node.elem tag cs =>
    if tag = "title".data then some (Node.elem tag cs) else findTitleList cs
/-- soup.find("title") on a node list: the first title element in document
order. -/
def findTitleList : List Node → Option Node
  | [] => none
  | n :: ns =>
    match findTitleNode n with
    | some t => some t
    | none => findTitleList ns
end

mutual
/-- str(node): the serialized markup of one node. -/
def serNode : Node → Str
  | Node.text s => s
  | Node.elem tag cs =>
    "<".data ++ tag ++ ">".data ++ serList cs ++ "</".data ++ tag ++ ">".data
/-- str(soup): the serialized markup of a node list. -/
def serList : List Node → Str
  | [] => []
  | n :: ns => serNode n ++ serList ns
end

/-- tag.get_text() with default arguments: all string descendants joined
with the empty separator. -/
def nodeTextAll (n : Node) : Str := (stringsNode n).flatten

/-- One object submitted to the vector store batch by index_website_content
(app.py lines 191-199): the four text properties (the vector accompanying
it is the embedding of the content, supplied by the external model). -/
structure IndexedRecord where
  content : Str
  url : Str
  html_snippet : Str
  page_title : Str
deriving DecidableEq

/-- The records index_website_content submits for one fetched page (app.py
lines 178-200): clean the markup, extract text and title, chunk the text
with max_tokens 500, and submit every chunk whose stripped length exceeds
50 characters, carrying the chunk, the page URL, the first 1000 characters
of the serialized cleaned soup, and the stripped title text. -/
def records_for_page (url : Str) (html_content : List Node) : List IndexedRecord :=
  let soup := clean_html html_content
  let text := get_text_strip soup
  let page_title :=
    match findTitleList soup with
    | some t => pyStrip (nodeTextAll t)
    | none => []
  (chunk_text text 500).filterMap (fun chunk =>
    if 50 < (pyStrip chunk).length then
      some { content := chunk, url := url,
             html_snippet := (serList soup).take 1000, page_title := page_title }
    else none)

/-- The population loop of index_website_content (app.py lines 173-200)
over the gathered fetch results: a page with empty content is skipped
(none models empty content), any other page contributes its records; the
returned total_chunks is the length of this list. -/
def index_website_content : List (Str × Option (List Node)) → List IndexedRecord
  | [] => []
  | (_, none) :: rest => index_website_content rest
  | (url, some doc) :: rest => records_for_page url doc ++ index_website_content rest

/-- Python substring test `sub in s`. -/
def isSubstring (sub : Str) : Str → Bool
  | [] => sub.isEmpty
  | c :: t => sub.isPrefixOf (c :: t) || isSubstring sub t

/-- Python str.lower(), restricted to the ASCII case map used here. -/
def lowerStr (s : Str) : Str := s.map Char.toLower

/-- The fixed blocklist of substrings of get_website_links (app.py line 103). -/
def blocklist : List Str :=
  ["#".data, "javascript:".data, "mailto:".data, ".pdf".data, ".jpg".data,
   ".png".data, ".gif".data]

/-- A candidate URL is rejected when its lowercase form contains any
blocklist substring (app.py line 103). -/
def blocked (url : Str) : Bool :=
  blocklist.any (fun k => isSubstring k (lowerStr url))

/-- The scheme part of an absolute URL (characters before the first colon). -/
def schemePart (url : Str) : Str := url.takeWhile (fun c => c ≠ ':')

/-- Scheme and network location of an absolute URL, as "scheme://netloc". -/
def schemeNetloc (url : Str) : Str := schemePart url ++ "://".data ++ netloc url

/-- urljoin(base, href), modeled for the inputs the source feeds it: an
absolute http(s) base and an href starting with "/".  A protocol-relative
href ("//...") keeps only the scheme of the base; otherwise the href
replaces the whole path of the base. -/
def urljoin (base href : Str) : Str :=
  if ("//".data).isPrefixOf href then schemePart base ++ ':' :: href
  else schemeNetloc base ++ href

/-- Add an element to the accumulated link set (a Python set; modeled as a
duplicate-free list in insertion order). -/
def addUnique (links : List Str) (u : Str) : List Str :=
  if u ∈ links then links else links ++ [u]

/-- The anchor loop of get_website_links (app.py lines 94-107): an href
starting with "/" is resolved with urljoin, an href starting with the base
URL is taken as is, anything else is skipped (continue).  An admitted
candidate is added to the set unless blocked; after each admission test the
loop stops once the set has reached max_pages elements. -/
def discoverLoop (base_url : Str) (max_pages : Nat) :
    List Str → List Str → List Str
  | [], links => links
  | href :: rest, links =>
    match (if ("/".data).isPrefixOf href then some (urljoin base_url href)
           else if base_url.isPrefixOf href then some href
           else none) with
    | none => discoverLoop base_url max_pages rest links
    | some full_url =>
      let links1 := if blocked full_url then links else addUnique links full_url
      if max_pages ≤ links1.length then links1
      else discoverLoop base_url max_pages rest links1

/-- get_website_links (app.py lines 84-112).  The network fetch and the
HTML parse are external: the input carries the fetched content together
with the href attributes of its anchor elements in document order, and
none models an exception inside the try block (the except path).  Empty
content and the except path both fall back to the singleton seed list. -/
def get_website_links (base_url : Str) (fetch : Option (Str × List Str))
    (max_pages : Nat) : List Str :=
  match fetch with
  | none => [base_url]
  | some (content, anchors) =>
    if content = [] then [base_url]
    else discoverLoop base_url max_pages anchors [base_url]

/-- Python round(q, 3) on exact rationals (the source applies it to a
float distance; the model treats the distance as an exact rational).  With
q = num/den, the scaled value q*1000 is N/D below; its floor is f, the
fractional part is rem/D, and the half-even tie rule of the builtin round
picks between f and f+1.  The computation stays on integers because the
library rational arithmetic is irreducible. -/
def pyRound3 (q : ℚ) : ℚ :=
  let N : ℤ := q.num * 1000
  let D : ℤ := (q.den : ℤ)
  let f : ℤ := N.fdiv D
  let rem : ℤ := N - f * D
  let r : ℤ :=
    if D < 2 * rem then f + 1
    else if 2 * rem < D then f
    else if f % 2 = 0 then f else f + 1
  mkRat r 1000

/-- A nearest-neighbor hit returned by the vector store: a distance plus
the stored properties.  The html_snippet property is read with .get and a
default, hence the Option. -/
structure Hit where
  distance : ℚ
  url : Str
  content : Str
  html_snippet : Option Str

/-- A search result as assembled by search_content (app.py lines 220-229). -/
structure SearchResultM where
  score : ℚ
  url : Str
  content : Str
  html_snippet : Str
deriving DecidableEq

/-- The per-hit mapping of search_content (app.py lines 221-229). -/
def resultOfHit (obj : Hit) : SearchResultM :=
  { score := pyRound3 (1 - obj.distance)
    url := obj.url
    content :=
      if 300 < obj.content.length then obj.content.take 300 ++ "...".data
      else obj.content
    html_snippet := (obj.html_snippet.getD []).take 500 }

/-- search_content result assembly (app.py lines 220-231): every hit of the
vector store query is mapped to a SearchResultM, in order. -/
def search_content (hits : List Hit) : List SearchResultM :=
  hits.map resultOfHit

/-- Python exceptions reaching the request handler: fastapi HTTPException
(with status code and detail) or any other exception (with its message). -/
inductive PyExn where
  | httpException (status : Nat) (detail : Str)
  | other (msg : Str)

/-- str(e) for the exceptions above; starlette formats an HTTPException as
"status_code: detail". -/
def strOfExn : PyExn → Str
  | PyExn.httpException s d => (Nat.toDigits 10 s) ++ ": ".data ++ d
  | PyExn.other m => m

/-- The response envelope of the search endpoint. -/
structure SearchResponseM where
  results : List SearchResultM
  time : ℚ
  total_chunks : Nat
deriving DecidableEq

/-- The outcome of one request: a 200 payload or an HTTP error status with
detail. -/
inductive HttpOutcome where
  | ok (resp : SearchResponseM)
  | err (status : Nat) (detail : Str)
deriving DecidableEq

/-- URL normalization of search_website (app.py lines 247-248). -/
def normalizeWebsite (w : Str) : Str :=
  if ("http://".data).isPrefixOf w || ("https://".data).isPrefixOf w then w
  else "https://".data ++ w

/-- search_website (app.py lines 237-276).  The crawl-index-query pipeline
(lines 251-263) runs network and vector-store effects, so it is passed in
as a function from the query and the normalized website to either a result
list with a chunk count or an error message; the elapsed wall-clock time is
not modeled and reported as 0.  Everything, the validation HTTPException
included, runs inside the try block; any exception e, HTTPException or
not, is caught by the blanket except and re-raised as
HTTPException(status_code=500, detail=str(e)). -/
def search_website (query website : Str)
    (pipeline : Str → Str → Except Str (List SearchResultM × Nat)) : HttpOutcome :=
  let body : Except PyExn SearchResponseM :=
    if website = [] ∨ query = [] then
      Except.error (PyExn.httpException 400 ("Website URL and query are required".data))
    else
      match pipeline query (normalizeWebsite website) with
      | Except.ok (results, total) => Except.ok ⟨results, 0, total⟩
      | Except.error msg => Except.error (PyExn.other msg)
  match body with
  | Except.ok r => HttpOutcome.ok r
  | Except.error e => HttpOutcome.err 500 (strOfExn e)

/-- The 1200-word cleaned page text of the end-to-end chunking scenario:
1200 copies of a 3-character word joined by single spaces. -/
def scenarioText : Str := joinSpace (List.replicate 1200 ("abc".data))

/-- A word as produced by str.split(): non-empty and free of whitespace. -/
def goodWord (w : Str) : Prop := w ≠ [] ∧ ∀ c ∈ w, c.isWhitespace = false

theorem pySplitAux_word (w : Str) (hw : ∀ c ∈ w, c.isWhitespace = false) :
    ∀ s acc, pySplitAux (w ++ s) acc = pySplitAux s (w.reverse ++ acc) := by
  induction w with
  | nil => intro s acc; simp
  | cons c w ih =>
    intro s acc
    have hc : c.isWhitespace = false := hw c (List.mem_cons_self c w)
    have hw' : ∀ x ∈ w, x.isWhitespace = false := fun x hx => hw x (List.mem_cons_of_mem c hx)
    have h1 : pySplitAux (c :: (w ++ s)) acc = pySplitAux (w ++ s) (c :: acc) := by
      simp [pySplitAux, hc]
    rw [List.cons_append, h1, ih hw' s (c :: acc)]
    simp [List.reverse_cons, List.append_assoc]

theorem pySplit_joinSpace : ∀ ws : List Str, (∀ w ∈ ws, goodWord w) →
    pySplit (joinSpace ws) = ws := by
  intro ws
  induction ws with
  | nil => intro _; rfl
  | cons w ws ih =>
    intro hgood
    obtain ⟨hne, hchars⟩ := hgood w (List.mem_cons_self w ws)
    have hrevne : w.reverse ≠ [] := fun hnil => hne (List.reverse_eq_nil_iff.mp hnil)
    obtain ⟨a, t, hrev⟩ := List.exists_cons_of_ne_nil hrevne
    cases ws with
    | nil =>
      show pySplitAux (joinSpace [w]) [] = [w]
      have hj1 : joinSpace [w] = w ++ [] := (List.append_nil w).symm
      rw [hj1, pySplitAux_word w hchars, List.append_nil, hrev]
      show [(a :: t).reverse] = [w]
      rw [← hrev, List.reverse_reverse]
    | cons x ws' =>
      have hrest : ∀ v ∈ x :: ws', goodWord v := fun v hv =>
        hgood v (List.mem_cons_of_mem w hv)
      show pySplitAux (joinSpace (w :: x :: ws')) [] = w :: x :: ws'
      have hj : joinSpace (w :: x :: ws') = w ++ ' ' :: joinSpace (x :: ws') := rfl
      rw [hj, pySplitAux_word w hchars, List.append_nil, hrev]
      have step : pySplitAux (' ' :: joinSpace (x :: ws')) (a :: t)
          = (a :: t).reverse :: pySplitAux (joinSpace (x :: ws')) [] := rfl
      rw [step, ← hrev, List.reverse_reverse]
      exact congrArg (w :: ·) (ih hrest)

theorem pySplitAux_good : ∀ (s : List Char) (acc : List Char),
    (∀ c ∈ acc, c.isWhitespace = false) →
    ∀ w ∈ pySplitAux s acc, goodWord w := by
  intro s
  induction s with
  | nil =>
    intro acc hacc w hw
    cases acc with
    | nil => cases hw
    | cons a t =>
      have : w = (a :: t).reverse := by
        simpa [pySplitAux] using hw
      subst this
      refine ⟨by simp, fun c hc => hacc c (List.mem_reverse.mp hc)⟩
  | cons c cs ih =>
    intro acc hacc w hw
    by_cases hc : c.isWhitespace = true
    · cases acc with
      | nil =>
        have : w ∈ pySplitAux cs [] := by simpa [pySplitAux, hc] using hw
        exact ih [] (by simp) w this
      | cons a t =>
        have : w = (a :: t).reverse ∨ w ∈ pySplitAux cs [] := by
          simpa [pySplitAux, hc] using hw
        rcases this with h | h
        · subst h
          exact ⟨by simp, fun x hx => hacc x (List.mem_reverse.mp hx)⟩
        · exact ih [] (by simp) w h
    · have hc' : c.isWhitespace = false := by simpa using hc
      have : w ∈ pySplitAux cs (c :: acc) := by simpa [pySplitAux, hc'] using hw
      refine ih (c :: acc) ?_ w this
      intro x hx
      rcases List.mem_cons.mp hx with h | h
      · exact h ▸ hc'
      · exact hacc x h

theorem pySplit_good (s : Str) : ∀ w ∈ pySplit s, goodWord w :=
  pySplitAux_good s [] (by simp)

theorem groupsF_flatten : ∀ (fuel : Nat) (l : List α) (n : Nat), l.length ≤ fuel →
    (groupsF fuel l n).flatten = l := by
  intro fuel
  induction fuel with
  | zero =>
    intro l n hl
    cases l with
    | nil => rfl
    | cons x xs => simp at hl
  | succ fuel ih =>
    intro l n hl
    cases l with
    | nil => rfl
    | cons x xs =>
      have hlen : (xs.drop (n - 1)).length ≤ fuel := by
        have := List.length_drop (n - 1) xs
        have hxs : xs.length ≤ fuel := by simpa using hl
        omega
      simp only [groupsF, List.flatten_cons, ih (xs.drop (n - 1)) n hlen]
      simp [List.take_append_drop]

theorem groups_flatten (l : List α) (n : Nat) : (groups l n).flatten = l :=
  groupsF_flatten l.length l n (Nat.le_refl _)

theorem groupsF_ne_nil : ∀ (fuel : Nat) (l : List α) (n : Nat),
    ∀ g ∈ groupsF fuel l n, g ≠ [] := by
  intro fuel
  induction fuel with
  | zero => intro l n g hg; cases l <;> cases hg
  | succ fuel ih =>
    intro l n g hg
    cases l with
    | nil => cases hg
    | cons x xs =>
      rcases List.mem_cons.mp hg with h | h
      · subst h; simp
      · exact ih _ n g h

theorem groups_mem_mem (l : List α) (n : Nat) (g : List α) (hg : g ∈ groups l n) :
    ∀ a ∈ g, a ∈ l := by
  intro a ha
  have : a ∈ (groups l n).flatten := List.mem_flatten.mpr ⟨g, hg, ha⟩
  rwa [groups_flatten] at this

theorem dropWhile_head_false {α : Type} {p : α → Bool} :
    ∀ (l : List α) (c : α) (t : List α), l.dropWhile p = c :: t → p c = false := by
  intro l
  induction l with
  | nil => intro c t h; cases h
  | cons a l ih =>
    intro c t h
    by_cases ha : p a = true
    · exact ih c t (by simpa [List.dropWhile, ha] using h)
    · have ha' : p a = false := by simpa using ha
      have : a :: l = c :: t := by simpa [List.dropWhile, ha'] using h
      cases this
      exact ha'

theorem pyStrip_eq_nil_iff (s : Str) : pyStrip s = [] ↔ ∀ c ∈ s, c.isWhitespace = true := by
  unfold pyStrip
  rw [List.reverse_eq_nil_iff, List.dropWhile_eq_nil_iff]
  constructor
  · intro h
    have h2 : ∀ x ∈ s.dropWhile Char.isWhitespace, x.isWhitespace = true := by
      intro x hx; exact h x (List.mem_reverse.mpr hx)
    have h3 : s.dropWhile Char.isWhitespace = [] := by
      cases hd : s.dropWhile Char.isWhitespace with
      | nil => rfl
      | cons c t =>
        have hcfalse := dropWhile_head_false s c t hd
        have hctrue := h2 c (by rw [hd]; exact List.mem_cons_self c t)
        rw [hcfalse] at hctrue
        cases hctrue
    exact List.dropWhile_eq_nil_iff.mp h3
  · intro h x hx
    exact h x ((List.dropWhile_sublist Char.isWhitespace).subset (List.mem_reverse.mp hx))

theorem groups_ne_nil (l : List α) (n : Nat) : ∀ g ∈ groups l n, g ≠ [] :=
  groupsF_ne_nil l.length l n

theorem joinSpace_cons (w : Str) (ws : List Str) :
    ∃ rest, joinSpace (w :: ws) = w ++ rest := by
  cases ws with
  | nil => exact ⟨[], (List.append_nil w).symm⟩
  | cons x r => exact ⟨' ' :: joinSpace (x :: r), rfl⟩

theorem pyStrip_joinSpace_ne_nil (w : Str) (ws : List Str) (hw : goodWord w) :
    pyStrip (joinSpace (w :: ws)) ≠ [] := by
  obtain ⟨hne, hchars⟩ := hw
  obtain ⟨c, w', hcw⟩ := List.exists_cons_of_ne_nil hne
  obtain ⟨rest, hrest⟩ := joinSpace_cons w ws
  intro hnil
  have hall := (pyStrip_eq_nil_iff _).mp hnil
  have hcmem : c ∈ joinSpace (w :: ws) := by
    rw [hrest]
    exact List.mem_append_left rest (hcw ▸ List.mem_cons_self c w')
  have := hall c hcmem
  rw [hchars c (hcw ▸ List.mem_cons_self c w')] at this
  cases this

theorem filterMap_strip_all (l : List (List Str))
    (h : ∀ g ∈ l, pyStrip (joinSpace g) ≠ []) :
    l.filterMap (fun g =>
      let c := joinSpace g
      if pyStrip c = [] then none else some c) = l.map joinSpace := by
  induction l with
  | nil => rfl
  | cons g l ih =>
    have hg := h g (List.mem_cons_self g l)
    have hrest : ∀ g ∈ l, pyStrip (joinSpace g) ≠ [] := fun g hgl =>
      h g (List.mem_cons_of_mem _ hgl)
    simp only [List.filterMap_cons, List.map_cons, if_neg hg, ih hrest]

theorem chunk_text_eq (text : Str) (n : Nat) :
    chunk_text text n = (groups (pySplit text) n).map joinSpace := by
  show (groups (pySplit text) n).filterMap _ = _
  apply filterMap_strip_all
  intro g hg
  obtain ⟨w, g', hcons⟩ := List.exists_cons_of_ne_nil (groups_ne_nil _ n g hg)
  subst hcons
  exact pyStrip_joinSpace_ne_nil w g'
    (pySplit_good text w (groups_mem_mem _ _ _ hg w (List.mem_cons_self w g')))

set_option maxRecDepth 100000 in
/-- C6: for every input text, concatenating the words of all chunks
produced by chunk_text(text, maxWords), in order, reproduces the
whitespace-split word sequence of the input exactly; in particular the
1200-word scenario text with maxWords 500 yields exactly 3 chunks of 500,
500 and 200 words respectively. -/
theorem C6_chunking_roundtrip (text : Str) (n : Nat) (_h : 0 < n) :
    ((chunk_text text n).map pySplit).flatten = pySplit text ∧
    (chunk_text scenarioText 500).map (fun c => (pySplit c).length) = [500, 500, 200] := by
  constructor
  · rw [chunk_text_eq, List.map_map]
    have hmap : (groups (pySplit text) n).map (pySplit ∘ joinSpace)
        = (groups (pySplit text) n).map id := by
      apply List.map_congr_left
      intro g hg
      have hmem : ∀ w ∈ g, goodWord w := fun w hwg =>
        pySplit_good text w (groups_mem_mem _ _ _ hg w hwg)
      exact pySplit_joinSpace g hmem
    rw [hmap, List.map_id, groups_flatten]
  · decide

/-- Witness for C6 at a concrete two-word text and maxWords 500. -/
theorem C6_chunking_roundtrip_witness :
    ((chunk_text ("ab cd".data) 500).map pySplit).flatten = pySplit ("ab cd".data) ∧
    (chunk_text scenarioText 500).map (fun c => (pySplit c).length) = [500, 500, 200] :=
  C6_chunking_roundtrip ("ab cd".data) 500 (by decide)

theorem addUnique_length (links : List Str) (u : Str) :
    (addUnique links u).length ≤ links.length + 1 := by
  unfold addUnique
  split
  · exact Nat.le_succ _
  · simp

theorem addUnique_mem (links : List Str) (u x : Str) (hx : x ∈ links) :
    x ∈ addUnique links u := by
  unfold addUnique
  split
  · exact hx
  · exact List.mem_append_left _ hx

theorem mem_addUnique (links : List Str) (full u : Str) (h : u ∈ addUnique links full) :
    u ∈ links ∨ u = full := by
  unfold addUnique at h
  split at h
  · exact Or.inl h
  · rcases List.mem_append.mp h with h1 | h1
    · exact Or.inl h1
    · exact Or.inr (List.mem_singleton.mp h1)

theorem mem_filtered_add (links : List Str) (full u : Str)
    (h : u ∈ (if blocked full then links else addUnique links full)) :
    u ∈ links ∨ (u = full ∧ blocked full = false) := by
  by_cases hb : blocked full = true
  · rw [if_pos hb] at h
    exact Or.inl h
  · have hb' : blocked full = false := by simpa using hb
    rw [hb', if_neg (by simp)] at h
    rcases mem_addUnique links full u h with h1 | h1
    · exact Or.inl h1
    · exact Or.inr ⟨h1, hb'⟩

theorem length_filtered_add (links : List Str) (full : Str) :
    (if blocked full then links else addUnique links full).length ≤ links.length + 1 := by
  split
  · exact Nat.le_succ _
  · exact addUnique_length links full

theorem if_some_cases {α : Type} (c1 c2 : Bool) (a b full : α)
    (h : (if c1 then some a else if c2 then some b else none) = some full) :
    (c1 = true ∧ full = a) ∨ (c2 = true ∧ full = b) := by
  cases c1 <;> cases c2 <;> simp_all

theorem discoverLoop_length (base : Str) (mp : Nat) :
    ∀ (anchors links : List Str), links.length < mp →
      (discoverLoop base mp anchors links).length ≤ mp := by
  intro anchors
  induction anchors with
  | nil => intro links h; exact Nat.le_of_lt h
  | cons href rest ih =>
    intro links h
    simp only [discoverLoop]
    split
    · exact ih links h
    · rename_i full heq
      generalize hgen : (if blocked full = true then links else addUnique links full) = links1
      have hlen : links1.length ≤ links.length + 1 := hgen ▸ length_filtered_add links full
      split
      · omega
      · exact ih links1 (by omega)

theorem discoverLoop_mem (base : Str) (mp : Nat) :
    ∀ (anchors links : List Str) (x : Str), x ∈ links →
      x ∈ discoverLoop base mp anchors links := by
  intro anchors
  induction anchors with
  | nil => intro links x hx; exact hx
  | cons href rest ih =>
    intro links x hx
    simp only [discoverLoop]
    split
    · exact ih links x hx
    · rename_i full heq
      have hx1 : x ∈ (if blocked full = true then links else addUnique links full) := by
        split
        · exact hx
        · exact addUnique_mem links full x hx
      generalize hgen : (if blocked full = true then links else addUnique links full) = links1
      rw [hgen] at hx1
      split
      · exact hx1
      · exact ih links1 x hx1

theorem discoverLoop_source (base : Str) (mp : Nat) :
    ∀ (anchors links : List Str) (u : Str), u ∈ discoverLoop base mp anchors links →
      u ∈ links ∨ ∃ href ∈ anchors,
        (((("/".data).isPrefixOf href) = true ∧ u = urljoin base href) ∨
         ((base.isPrefixOf href) = true ∧ u = href)) ∧ blocked u = false := by
  intro anchors
  induction anchors with
  | nil => intro links u hu; exact Or.inl hu
  | cons href rest ih =>
    intro links u hu
    simp only [discoverLoop] at hu
    have promote : (u ∈ links ∨ ∃ h ∈ rest,
        (((("/".data).isPrefixOf h) = true ∧ u = urljoin base h) ∨
         ((base.isPrefixOf h) = true ∧ u = h)) ∧ blocked u = false) →
        (u ∈ links ∨ ∃ h ∈ href :: rest,
        (((("/".data).isPrefixOf h) = true ∧ u = urljoin base h) ∨
         ((base.isPrefixOf h) = true ∧ u = h)) ∧ blocked u = false) := by
      rintro (h | ⟨a, ha, hrest⟩)
      · exact Or.inl h
      · exact Or.inr ⟨a, List.mem_cons_of_mem href ha, hrest⟩
    revert hu
    split
    · intro hu; exact promote (ih links u hu)
    · rename_i full heq
      intro hu
      have handle : u ∈ (if blocked full = true then links else addUnique links full) →
          u ∈ links ∨ ∃ h ∈ href :: rest,
            (((("/".data).isPrefixOf h) = true ∧ u = urljoin base h) ∨
             ((base.isPrefixOf h) = true ∧ u = h)) ∧ blocked u = false := by
        intro hmem
        rcases mem_filtered_add links full u hmem with h1 | ⟨hfull, hnb⟩
        · exact Or.inl h1
        · subst hfull
          rcases if_some_cases _ _ _ _ _ heq with ⟨hc, he⟩ | ⟨hc, he⟩
          · exact Or.inr ⟨href, List.mem_cons_self href rest, Or.inl ⟨hc, he⟩, hnb⟩
          · exact Or.inr ⟨href, List.mem_cons_self href rest, Or.inr ⟨hc, he⟩, hnb⟩
      revert hu
      generalize hgen : (if blocked full = true then links else addUnique links full) = links1
      rw [hgen] at handle
      split
      · intro hu; exact handle hu
      · intro hu
        rcases ih links1 u hu with h1 | h1
        · exact handle h1
        · exact promote (Or.inr h1)

/-- Seed URL of the end-to-end discovery scenario. -/
def seedScenario : Str := "https://site.com".data

/-- Anchor hrefs of the discovery scenario page: two same-origin links and
one external link. -/
def anchorsScenario : List Str :=
  ["/about".data, "https://site.com/blog".data, "https://other.com/x".data]

/-- C4 counterexample: with maxPages 1 and a seed page carrying one
same-origin anchor, the result holds two URLs, exceeding maxPages (the cap
is only checked after an admission and the seed is pre-seeded). -/
theorem C4_counterexample :
    ¬ ((get_website_links ("https://s.com".data)
        (some ("x".data, ["/a".data])) 1).length ≤ 1) := by decide

/-- C4 (amended): the Link Discoverer returns at most maxPages URLs
whenever maxPages is at least 2; the seed URL is always a member of the
result; an exception during discovery or empty seed content yields exactly
the singleton seed list. -/
theorem C4_discovery_bounds (base : Str) (fetch : Option (Str × List Str)) (mp : Nat) :
    (2 ≤ mp → (get_website_links base fetch mp).length ≤ mp) ∧
    base ∈ get_website_links base fetch mp ∧
    (fetch = none → get_website_links base fetch mp = [base]) ∧
    (∀ anchors, fetch = some ([], anchors) → get_website_links base fetch mp = [base]) := by
  refine ⟨?_, ?_, ?_, ?_⟩
  · intro hmp
    match fetch with
    | none => simp only [get_website_links, List.length_singleton]; omega
    | some (content, anchors) =>
      by_cases hc : content = []
      · simp only [get_website_links, if_pos hc, List.length_singleton]
        omega
      · simp only [get_website_links, if_neg hc]
        exact discoverLoop_length base mp anchors [base] (by simp; omega)
  · match fetch with
    | none => simp [get_website_links]
    | some (content, anchors) =>
      by_cases hc : content = []
      · simp [get_website_links, if_pos hc]
      · simp only [get_website_links, if_neg hc]
        exact discoverLoop_mem base mp anchors [base] base (List.mem_singleton.mpr rfl)
  · intro h; subst h; rfl
  · intro anchors h; subst h; simp [get_website_links]

/-- Witness for C4 at concrete inputs. -/
theorem C4_discovery_bounds_witness :
    (get_website_links ("https://s.com".data) (some ("x".data, ["/a".data])) 5).length ≤ 5 ∧
    ("https://s.com".data) ∈
      get_website_links ("https://s.com".data) (some ("x".data, ["/a".data])) 5 ∧
    get_website_links ("https://s.com".data) none 5 = ["https://s.com".data] ∧
    get_website_links ("https://s.com".data) (some ([], ["/a".data])) 5
      = ["https://s.com".data] :=
  ⟨(C4_discovery_bounds ("https://s.com".data) (some ("x".data, ["/a".data])) 5).1 (by decide),
   (C4_discovery_bounds ("https://s.com".data) (some ("x".data, ["/a".data])) 5).2.1,
   (C4_discovery_bounds ("https://s.com".data) none 5).2.2.1 rfl,
   (C4_discovery_bounds ("https://s.com".data) (some ([], ["/a".data])) 5).2.2.2
     ["/a".data] rfl⟩

/-- C5: a URL other than the seed enters the discovery result only when it
comes from an anchor href that either starts with a slash (and the URL is
its urljoin resolution against the seed) or starts with the full seed URL
(and the URL is the href itself), and no admitted URL contains a blocklist
substring case-insensitively; in the end-to-end scenario with two
same-origin links and one external link the result is exactly the seed
plus the two same-origin links and never the external one. -/
theorem C5_admission_policy (base content : Str) (anchors : List Str) (mp : Nat) (u : Str)
    (hu : u ∈ get_website_links base (some (content, anchors)) mp) :
    (u = base ∨ ∃ href ∈ anchors,
      (((("/".data).isPrefixOf href) = true ∧ u = urljoin base href) ∨
       ((base.isPrefixOf href) = true ∧ u = href)) ∧ blocked u = false) ∧
    (get_website_links seedScenario (some ("<html>".data, anchorsScenario)) 1500
      = [seedScenario, "https://site.com/about".data, "https://site.com/blog".data] ∧
     ("https://other.com/x".data) ∉
       get_website_links seedScenario (some ("<html>".data, anchorsScenario)) 1500) := by
  constructor
  · by_cases hc : content = []
    · simp only [get_website_links, if_pos hc] at hu
      exact Or.inl (List.mem_singleton.mp hu)
    · simp only [get_website_links, if_neg hc] at hu
      rcases discoverLoop_source base mp anchors [base] u hu with h1 | h1
      · exact Or.inl (List.mem_singleton.mp h1)
      · exact Or.inr h1
  · exact ⟨by decide, by decide⟩

/-- Witness for C5 at the scenario seed and anchors. -/
theorem C5_admission_policy_witness :
    (("https://site.com/about".data) = seedScenario ∨ ∃ href ∈ anchorsScenario,
      (((("/".data).isPrefixOf href) = true ∧
          ("https://site.com/about".data) = urljoin seedScenario href) ∨
       ((seedScenario.isPrefixOf href) = true ∧
          ("https://site.com/about".data) = href)) ∧
      blocked ("https://site.com/about".data) = false) ∧
    (get_website_links seedScenario (some ("<html>".data, anchorsScenario)) 1500
      = [seedScenario, "https://site.com/about".data, "https://site.com/blog".data] ∧
     ("https://other.com/x".data) ∉
       get_website_links seedScenario (some ("<html>".data, anchorsScenario)) 1500) :=
  C5_admission_policy seedScenario ("<html>".data) anchorsScenario 1500
    ("https://site.com/about".data) (by decide)

theorem get_collection_name_eq (u : Str) :
    ∃ d, get_collection_name u = ("Website_".data ++ d).take 50 := ⟨_, rfl⟩

theorem prefix_take_50 (d : Str) :
    ("Website_".data).isPrefixOf (("Website_".data ++ d).take 50) = true := by
  rw [List.isPrefixOf_iff_prefix]
  have h1 : (("Website_".data ++ d).take 50).take 8 = "Website_".data := by
    rw [List.take_take]
    show ("Website_".data ++ d).take 8 = "Website_".data
    have h2 : ("Website_".data).length = 8 := rfl
    rw [← h2]
    exact List.take_left _ _
  exact h1 ▸ List.take_prefix 8 _

theorem mem_clear_all_collections (names : List Str) (n : Str) :
    n ∈ clear_all_collections names ↔
      n ∈ names ∧ ("Website_".data).isPrefixOf n = true := by
  induction names with
  | nil => simp [clear_all_collections]
  | cons m rest ih =>
    by_cases hm : ("Website_".data).isPrefixOf m = true
    · simp only [clear_all_collections, if_pos hm, List.mem_cons, ih]
      constructor
      · rintro (rfl | ⟨hmem, hpre⟩)
        · exact ⟨Or.inl rfl, hm⟩
        · exact ⟨Or.inr hmem, hpre⟩
      · rintro ⟨rfl | hmem, hpre⟩
        · exact Or.inl rfl
        · exact Or.inr ⟨hmem, hpre⟩
    · have hm' : ("Website_".data).isPrefixOf m = false := Bool.eq_false_iff.mpr hm
      simp only [clear_all_collections, if_neg hm, List.mem_cons, ih]
      constructor
      · rintro ⟨hmem, hpre⟩; exact ⟨Or.inr hmem, hpre⟩
      · rintro ⟨rfl | hmem, hpre⟩
        · rw [hpre] at hm'; cases hm'
        · exact ⟨hmem, hpre⟩

/-- C3: collection-name derivation is a pure function of the origin URL
string (equal inputs give equal names), the returned name is at most 50
characters long, and it starts with the alphabetic character W. -/
theorem C3_collection_name (u v : Str) (h : u = v) :
    get_collection_name u = get_collection_name v ∧
    (get_collection_name u).length ≤ 50 ∧
    ∃ t, get_collection_name u = 'W' :: t ∧ ('W').isAlpha = true := by
  obtain ⟨d, hd⟩ := get_collection_name_eq u
  refine ⟨congrArg get_collection_name h, ?_, ?_⟩
  · rw [hd]
    simp [List.length_take]
  · rw [hd]
    exact ⟨("ebsite_".data ++ d).take 49, rfl, by decide⟩

/-- Witness for C3 at a concrete origin URL. -/
theorem C3_collection_name_witness :
    get_collection_name ("https://example.com".data)
      = get_collection_name ("https://example.com".data) ∧
    (get_collection_name ("https://example.com".data)).length ≤ 50 ∧
    ∃ t, get_collection_name ("https://example.com".data) = 'W' :: t ∧
      ('W').isAlpha = true :=
  C3_collection_name ("https://example.com".data) ("https://example.com".data) rfl

/-- C10: every name produced by get_collection_name begins with the
literal prefix Website_, the administrative sweep attempts deletion of
exactly the listed collections whose names begin with that prefix, and
hence every collection the search pipeline can create is covered by the
sweep. -/
theorem C10_sweep_covers (u : Str) (names : List Str) (n : Str) :
    ("Website_".data).isPrefixOf (get_collection_name u) = true ∧
    (n ∈ clear_all_collections names ↔
      n ∈ names ∧ ("Website_".data).isPrefixOf n = true) ∧
    (get_collection_name u ∈ names →
      get_collection_name u ∈ clear_all_collections names) := by
  obtain ⟨d, hd⟩ := get_collection_name_eq u
  refine ⟨hd ▸ prefix_take_50 d, mem_clear_all_collections names n, ?_⟩
  intro hmem
  exact (mem_clear_all_collections names _).mpr ⟨hmem, hd ▸ prefix_take_50 d⟩

/-- Witness for C10: the name derived from a concrete origin is swept from
a concrete collection listing. -/
theorem C10_sweep_covers_witness :
    get_collection_name ("https://example.com".data) ∈
      clear_all_collections ["Website_example_com".data, "Other".data] :=
  (C10_sweep_covers ("https://example.com".data)
    ["Website_example_com".data, "Other".data] []).2.2 (by decide)

/-- The stripped page title index_website_content stores for a page
(app.py lines 181-182): the text of the first title element of the
cleaned soup, or the empty string when no title element exists. -/
def pageTitle (doc : List Node) : Str :=
  match findTitleList (clean_html doc) with
  | some t => pyStrip (nodeTextAll t)
  | none => []

theorem records_for_page_def (url : Str) (doc : List Node) :
    records_for_page url doc
      = (chunk_text (get_text_strip (clean_html doc)) 500).filterMap
        (fun chunk =>
          if 50 < (pyStrip chunk).length then
            some { content := chunk, url := url,
                   html_snippet := (serList (clean_html doc)).take 1000,
                   page_title := pageTitle doc }
          else none) := rfl

theorem mem_filterMap_content (url ptitle snip : Str) (chunks : List Str) (c : Str) :
    c ∈ (chunks.filterMap (fun chunk =>
        if 50 < (pyStrip chunk).length then
          some { content := chunk, url := url, html_snippet := snip,
                 page_title := ptitle : IndexedRecord }
        else none)).map IndexedRecord.content ↔
      c ∈ chunks ∧ 50 < (pyStrip c).length := by
  simp only [List.mem_map, List.mem_filterMap]
  constructor
  · rintro ⟨r, ⟨a, ha, hfa⟩, hc⟩
    by_cases h : 50 < (pyStrip a).length
    · rw [if_pos h] at hfa
      cases hfa
      cases hc
      exact ⟨ha, h⟩
    · rw [if_neg h] at hfa
      cases hfa
  · rintro ⟨hc, hlen⟩
    exact ⟨_, ⟨c, hc, if_pos hlen⟩, rfl⟩

theorem records_content_long (url : Str) (doc : List Node) (r : IndexedRecord)
    (hr : r ∈ records_for_page url doc) : 50 < (pyStrip r.content).length := by
  rw [records_for_page_def] at hr
  rcases List.mem_filterMap.mp hr with ⟨a, ha, hfa⟩
  by_cases h : 50 < (pyStrip a).length
  · rw [if_pos h] at hfa
    cases hfa
    simpa using h
  · rw [if_neg h] at hfa
    cases hfa

/-- Concrete page fixture: the source URL of a fetched page. -/
def urlFix : Str := "https://s.com".data

/-- Concrete page fixture: a 60-character text without whitespace. -/
def longText : Str :=
  "aaaaaaaaaaaaaaaaaaaaaaaaaaaaaaaaaaaaaaaaaaaaaaaaaaaaaaaaaaaa".data

/-- Concrete page fixture: a page whose markup opens with a script element
that cleaning removes, followed by a text long enough to be indexed. -/
def docFix : List Node :=
  [Node.elem ("html".data)
    [Node.elem ("script".data) [Node.text ("x".data)],
     Node.text longText]]

/-- The record index population produces for the fixture page. -/
def recFix : IndexedRecord :=
  { content := longText, url := urlFix,
    html_snippet := "<html>".data ++ longText ++ "</html>".data,
    page_title := [] }

/-- C2 counterexample: the fixture page yields a record whose html_snippet
is not a prefix of the raw fetched markup (the serialized original page),
because the snippet is taken from the cleaned markup with the script
element already removed. -/
theorem C2_counterexample :
    ∃ r, r ∈ records_for_page urlFix docFix ∧
      ¬ ((serList docFix).take r.html_snippet.length = r.html_snippet) :=
  ⟨recFix, by decide, by decide⟩

/-- C2 (amended): every record persisted for a page carries as
html_snippet the first 1000 characters of the serialized cleaned markup of
that page (a bounded-length prefix of the markup after tag removal, not of
the raw fetched markup), kept alongside the source URL and page title. -/
theorem C2_snippet_provenance (url : Str) (doc : List Node) (r : IndexedRecord)
    (hr : r ∈ records_for_page url doc) :
    r.html_snippet = (serList (clean_html doc)).take 1000 ∧
    r.html_snippet.length ≤ 1000 ∧
    r.url = url ∧ r.page_title = pageTitle doc := by
  rw [records_for_page_def] at hr
  rcases List.mem_filterMap.mp hr with ⟨a, ha, hfa⟩
  by_cases h : 50 < (pyStrip a).length
  · rw [if_pos h] at hfa
    cases hfa
    refine ⟨rfl, ?_, rfl, rfl⟩
    simp [List.length_take]
  · rw [if_neg h] at hfa
    cases hfa

/-- Witness for C2 at the fixture page and its record. -/
theorem C2_snippet_provenance_witness :
    recFix.html_snippet = (serList (clean_html docFix)).take 1000 ∧
    recFix.html_snippet.length ≤ 1000 ∧
    recFix.url = urlFix ∧ recFix.page_title = pageTitle docFix :=
  C2_snippet_provenance urlFix docFix recFix (by decide)

/-- C7: a chunk of a page is embedded and submitted for insertion exactly
when its stripped length strictly exceeds 50 characters, and no record
submitted during index population ever carries a chunk of stripped length
50 or less. -/
theorem C7_chunk_retention (url : Str) (doc : List Node) (c : Str) :
    (c ∈ (records_for_page url doc).map IndexedRecord.content ↔
      c ∈ chunk_text (get_text_strip (clean_html doc)) 500 ∧
        50 < (pyStrip c).length) ∧
    (∀ (pages : List (Str × Option (List Node))) (r : IndexedRecord),
      r ∈ index_website_content pages → 50 < (pyStrip r.content).length) := by
  constructor
  · rw [records_for_page_def]
    exact mem_filterMap_content url (pageTitle doc)
      ((serList (clean_html doc)).take 1000) _ c
  · intro pages r hr
    induction pages with
    | nil => cases hr
    | cons p rest ih =>
      obtain ⟨purl, pc⟩ := p
      cases pc with
      | none =>
        exact ih (by simpa [index_website_content] using hr)
      | some pdoc =>
        simp only [index_website_content] at hr
        rcases List.mem_append.mp hr with h1 | h1
        · exact records_content_long purl pdoc r h1
        · exact ih h1

/-- Witness for C7: the fixture record passes the retention bound. -/
theorem C7_chunk_retention_witness :
    50 < (pyStrip recFix.content).length :=
  (C7_chunk_retention urlFix docFix []).2 [(urlFix, some docFix)] recFix (by decide)

/-- C8: the Query Engine maps each hit with distance d to the score
round(1 - d, 3); in particular distance 0 scores 1.0, distance 1 scores
0.0, and distance 0.357 scores 0.643. -/
theorem C8_score_formula (hits : List Hit) :
    (search_content hits).map SearchResultM.score
      = hits.map (fun h => pyRound3 (1 - h.distance)) ∧
    pyRound3 (1 - (0 : ℚ)) = 1 ∧
    pyRound3 (1 - (1 : ℚ)) = 0 ∧
    pyRound3 (1 - mkRat 357 1000) = mkRat 643 1000 := by
  refine ⟨?_, ?_, ?_, ?_⟩
  · rw [search_content, List.map_map]
    rfl
  · norm_num
    decide
  · norm_num
    decide
  · have h : (1 : ℚ) - mkRat 357 1000 = mkRat 643 1000 := by
      rw [Rat.mkRat_eq_div, Rat.mkRat_eq_div]
      norm_num
    rw [h]
    decide

/-- Concrete hit fixture for the query-engine claims. -/
def hitFix : Hit :=
  { distance := 0, url := urlFix, content := "short".data, html_snippet := none }

/-- C9: each search result keeps the hit content unmodified when it is at
most 300 characters long, and otherwise truncates it to its first 300
characters followed by a 3-character ellipsis marker; the markup snippet
field is truncated to at most 500 characters. -/
theorem C9_truncation (hits : List Hit) (r : SearchResultM)
    (hr : r ∈ search_content hits) :
    (∃ h ∈ hits,
      ((h.content.length ≤ 300 ∧ r.content = h.content) ∨
       (300 < h.content.length ∧ r.content = h.content.take 300 ++ "...".data ∧
        r.content.length = 303))) ∧
    r.html_snippet.length ≤ 500 := by
  rw [search_content] at hr
  rcases List.mem_map.mp hr with ⟨h, hh, hrh⟩
  subst hrh
  constructor
  · refine ⟨h, hh, ?_⟩
    by_cases hl : 300 < h.content.length
    · right
      refine ⟨hl, ?_, ?_⟩
      · simp [resultOfHit, if_pos hl]
      · simp only [resultOfHit, if_pos hl, List.length_append, List.length_take,
          List.length_cons, List.length_nil]
        omega
    · left
      exact ⟨by omega, by simp [resultOfHit, if_neg hl]⟩
  · simp [resultOfHit, List.length_take]

/-- Witness for C9 at a concrete one-hit result list. -/
theorem C9_truncation_witness :
    (∃ h ∈ [hitFix],
      ((h.content.length ≤ 300 ∧ (resultOfHit hitFix).content = h.content) ∨
       (300 < h.content.length ∧
        (resultOfHit hitFix).content = h.content.take 300 ++ "...".data ∧
        (resultOfHit hitFix).content.length = 303))) ∧
    (resultOfHit hitFix).html_snippet.length ≤ 500 :=
  C9_truncation [hitFix] (resultOfHit hitFix) (by simp [search_content])

/-- The pipeline stub used by the request-orchestrator witness: an
internal failure with a fixed message. -/
def pipelineFail : Str → Str → Except Str (List SearchResultM × Nat) :=
  fun _ _ => Except.error ("boom".data)

/-- C1 (code bug): validation failure does not surface as a client error.
An empty query makes the handler raise HTTPException(status_code=400)
inside the try block, but the blanket except handler catches it and
re-raises HTTPException(status_code=500, detail=str(e)), so the response
is HTTP 500 with detail "400: Website URL and query are required" — the
same 500 status used for internal pipeline failures. -/
theorem C1_validation_error_flow :
    (∀ pipeline, search_website [] ("example.com".data) pipeline
      = HttpOutcome.err 500 ("400: Website URL and query are required".data)) ∧
    (∀ (q w : Str) pipeline (msg : Str), q ≠ [] → w ≠ [] →
      pipeline q (normalizeWebsite w) = Except.error msg →
      search_website q w pipeline = HttpOutcome.err 500 msg) := by
  constructor
  · intro pipeline
    rfl
  · intro q w pipeline msg hq hw hp
    have hcond : ¬ (w = [] ∨ q = []) := by
      rintro (h | h)
      · exact hw h
      · exact hq h
    simp only [search_website, if_neg hcond, hp, strOfExn]

/-- Witness for C1: the concrete failing validation input and a concrete
failing pipeline both produce HTTP 500 responses. -/
theorem C1_validation_error_flow_witness :
    search_website [] ("example.com".data) pipelineFail
      = HttpOutcome.err 500 ("400: Website URL and query are required".data) ∧
    search_website ("a".data) ("b".data) pipelineFail
      = HttpOutcome.err 500 ("boom".data) :=
  ⟨C1_validation_error_flow.1 pipelineFail,
   C1_validation_error_flow.2 ("a".data) ("b".data) pipelineFail ("boom".data)
     (by decide) (by decide) rfl⟩

end WebsiteSearch
